import Mathlib

/-!
# Verification of the PodDigest digest-production pipeline core

A shallow embedding of the deterministic core of the PodDigest pipeline:

* the analyzer's clip selection (`selectClips`) and region scoring
  (`clampScore`, `computeWeightedScore`),
* the assembler's chapter-index computation (`assembleDigest`, step 7),
* the narrator's script splitting (`generateNarrationScripts`),
* the feed crawler's duration parsing (`parseDuration`),
* the crawl worker's fallback-and-fail logic,
* the orchestrator's `cancelDigest` and the digest status state machine.

Modelling conventions: JS `number` values are exact rationals `ℚ`
(decimal literals such as `0.15` denote exact rationals); JS
`Math.round x` is `⌊x + 1/2⌋`; JS `Array.prototype.sort` (stable since
ES2019) with comparator `c` is `List.insertionSort` with the relation
`fun a b => c a b ≤ 0`; JS strings are Lean `String`, except in the
duration parser where general reasoning about splitting requires the
`List Char` representation.
-/

namespace PodDigest

/-- JS `Math.round`: round half toward positive infinity. -/
def jsRound (q : ℚ) : ℤ := ⌊q + 1/2⌋

/-! ## Analyzer: clip selection (`selectClips`, ai-analyst service) -/

/-- A scored candidate region (`ClipCandidate`), restricted to the fields
the selection algorithm reads. -/
structure ClipCandidate where
  episodeId : String
  podcastTitle : String
  startTime : ℚ
  endTime : ℚ
  score : ℚ
deriving DecidableEq

/-- The selection configuration built from the digest config. The source
field `structure` is a Lean keyword and is embedded as `structurePref`. -/
structure SelectionConfig where
  targetLengthMinutes : ℕ
  clipLengthPref : String
  breadthDepth : ℕ
  structurePref : String
deriving DecidableEq

/-- `CLIP_LENGTH_RANGES[pref] ?? CLIP_LENGTH_RANGES.MIXED` -/
def clipLengthRange (pref : String) : ℚ × ℚ :=
  if pref = "SHORT" then (120, 240)
  else if pref = "MEDIUM" then (240, 480)
  else if pref = "LONG" then (480, 900)
  else (120, 900)

/-- Comparator `(a, b) => b.score - a.score` as the stable-sort relation
`b.score - a.score ≤ 0`, i.e. score descending. -/
def scoreDescOrder (a b : ClipCandidate) : Prop := b.score ≤ a.score

instance : DecidableRel scoreDescOrder :=
  fun a b => (inferInstance : Decidable (b.score ≤ a.score))

instance : IsTotal ClipCandidate scoreDescOrder :=
  ⟨fun a b => le_total b.score a.score⟩

instance : IsTrans ClipCandidate scoreDescOrder :=
  ⟨fun _ _ _ h1 h2 => le_trans h2 h1⟩

/-- `BY_SHOW`: podcast title (localeCompare modelled as the `String`
linear order), then `startTime` ascending. -/
def byShowOrder (a b : ClipCandidate) : Prop :=
  a.podcastTitle < b.podcastTitle ∨
    (a.podcastTitle = b.podcastTitle ∧ a.startTime ≤ b.startTime)

instance : DecidableRel byShowOrder :=
  fun a b => (inferInstance : Decidable (_ ∨ _))

/-- `BY_TOPIC`: podcast title, then score descending. -/
def byTopicOrder (a b : ClipCandidate) : Prop :=
  a.podcastTitle < b.podcastTitle ∨
    (a.podcastTitle = b.podcastTitle ∧ b.score ≤ a.score)

instance : DecidableRel byTopicOrder :=
  fun a b => (inferInstance : Decidable (_ ∨ _))

/-- `CHRONOLOGICAL`: episodeId, then `startTime` ascending. -/
def chronologicalOrder (a b : ClipCandidate) : Prop :=
  a.episodeId < b.episodeId ∨
    (a.episodeId = b.episodeId ∧ a.startTime ≤ b.startTime)

instance : DecidableRel chronologicalOrder :=
  fun a b => (inferInstance : Decidable (_ ∨ _))

/-- `orderClipsByStructure` -/
def orderClipsByStructure (clips : List ClipCandidate) (structurePref : String) :
    List ClipCandidate :=
  if structurePref = "BY_SCORE" then List.insertionSort scoreDescOrder clips
  else if structurePref = "BY_SHOW" then List.insertionSort byShowOrder clips
  else if structurePref = "BY_TOPIC" then List.insertionSort byTopicOrder clips
  else if structurePref = "CHRONOLOGICAL" then
    List.insertionSort chronologicalOrder clips
  else clips

/-- `candidate.endTime - candidate.startTime` -/
def clipDur (c : ClipCandidate) : ℚ := c.endTime - c.startTime

/-- `effectiveMin = lengthRange.min + breadthFactor * (max - min) * 0.3` -/
def effectiveMin (cfg : SelectionConfig) : ℚ :=
  let lengthRange := clipLengthRange cfg.clipLengthPref
  lengthRange.1 + (cfg.breadthDepth : ℚ) / 100 * (lengthRange.2 - lengthRange.1) * 0.3

/-- `effectiveMax = lengthRange.max - (1 - breadthFactor) * (max - min) * 0.3` -/
def effectiveMax (cfg : SelectionConfig) : ℚ :=
  let lengthRange := clipLengthRange cfg.clipLengthPref
  lengthRange.2 - (1 - (cfg.breadthDepth : ℚ) / 100) * (lengthRange.2 - lengthRange.1) * 0.3

/-- `maxClipsPerEpisode = Math.max(1, Math.round(1 + breadthFactor * 4))` -/
def maxClipsPerEpisode (cfg : SelectionConfig) : ℕ :=
  (max 1 (jsRound (1 + (cfg.breadthDepth : ℚ) / 100 * 4))).toNat

/-- `availableSeconds = targetLengthMinutes * 60 * (1 - NARRATION_RATIO)`
where the narration ratio constant is `0.15`. -/
def availableSeconds (cfg : SelectionConfig) : ℚ :=
  (cfg.targetLengthMinutes : ℚ) * 60 * (1 - 0.15)

/-- The selection loop of `selectClips`. `sel` plays the role of
`selected` and `total` of `totalDuration`; the source's
`episodeClipCounts` record is always equal to counting over `selected`,
which is how the per-episode limit is embedded here. -/
def selLoopGo (em eM avail : ℚ) (maxPer : ℕ) :
    List ClipCandidate → List ClipCandidate → ℚ → List ClipCandidate
  | [], sel, _ => sel
  | c :: rest, sel, total =>
    let d := clipDur c
    if d < em * 0.7 ∨ eM * 1.3 < d then
      selLoopGo em eM avail maxPer rest sel total
    else if avail < total + d then
      selLoopGo em eM avail maxPer rest sel total
    else if maxPer ≤ sel.countP (fun x => decide (x.episodeId = c.episodeId)) then
      selLoopGo em eM avail maxPer rest sel total
    else if sel.any (fun x => decide (x.episodeId = c.episodeId ∧
        x.startTime < c.endTime ∧ c.startTime < x.endTime)) then
      selLoopGo em eM avail maxPer rest sel total
    else if avail ≤ total + d then sel ++ [c]
    else selLoopGo em eM avail maxPer rest (sel ++ [c]) (total + d)

/-- `selectClips(candidates, config)` -/
def selectClips (candidates : List ClipCandidate) (config : SelectionConfig) :
    List ClipCandidate :=
  if candidates = [] then []
  else
    let sorted := List.insertionSort scoreDescOrder candidates
    orderClipsByStructure
      (selLoopGo (effectiveMin config) (effectiveMax config)
        (availableSeconds config) (maxClipsPerEpisode config) sorted [] 0)
      config.structurePref

/-! ### Lemmas about the selection loop -/

/-- Duration window accepted by the selection loop's first guard. -/
def SelOk (em eM : ℚ) (c : ClipCandidate) : Prop :=
  em * 0.7 ≤ clipDur c ∧ clipDur c ≤ eM * 1.3

/-- Two clips of the same episode do not overlap in time. -/
def noOverlapRel (a b : ClipCandidate) : Prop :=
  a.episodeId = b.episodeId →
    ¬(a.startTime < b.endTime ∧ b.startTime < a.endTime)

lemma noOverlapRel_symm : Symmetric noOverlapRel := by
  intro a b h heq hov
  exact h heq.symm ⟨hov.2, hov.1⟩

lemma orderClipsByStructure_perm (clips : List ClipCandidate) (s : String) :
    List.Perm (orderClipsByStructure clips s) clips := by
  unfold orderClipsByStructure
  split_ifs
  · exact List.perm_insertionSort _ _
  · exact List.perm_insertionSort _ _
  · exact List.perm_insertionSort _ _
  · exact List.perm_insertionSort _ _
  · exact List.Perm.refl _

lemma selLoopGo_inv (em eM avail : ℚ) (maxPer : ℕ) :
    ∀ (rest sel : List ClipCandidate) (total : ℚ),
      (sel.map clipDur).sum = total →
      total ≤ avail →
      (∀ c ∈ sel, SelOk em eM c) →
      (∀ e, sel.countP (fun x => decide (x.episodeId = e)) ≤ maxPer) →
      sel.Pairwise noOverlapRel →
      ((selLoopGo em eM avail maxPer rest sel total).map clipDur).sum ≤ avail ∧
      (∀ c ∈ selLoopGo em eM avail maxPer rest sel total, SelOk em eM c) ∧
      (∀ e, (selLoopGo em eM avail maxPer rest sel total).countP
          (fun x => decide (x.episodeId = e)) ≤ maxPer) ∧
      (selLoopGo em eM avail maxPer rest sel total).Pairwise noOverlapRel := by
  intro rest
  induction rest with
  | nil =>
    intro sel total hsum hle hok hcount hpair
    simpa [selLoopGo, hsum] using ⟨hle, hok, hcount, hpair⟩
  | cons c rest ih =>
    intro sel total hsum hle hok hcount hpair
    rw [selLoopGo]
    split_ifs with h1 h2 h3 h4 h5
    · exact ih sel total hsum hle hok hcount hpair
    · exact ih sel total hsum hle hok hcount hpair
    · exact ih sel total hsum hle hok hcount hpair
    · exact ih sel total hsum hle hok hcount hpair
    all_goals {
      push_neg at h1 h2 h3
      have hokc : SelOk em eM c := ⟨h1.1, h1.2⟩
      have hsum' : ((sel ++ [c]).map clipDur).sum = total + clipDur c := by
        simp [hsum]
      have hle' : total + clipDur c ≤ avail := h2
      have hok' : ∀ x ∈ sel ++ [c], SelOk em eM x := by
        intro x hx
        rcases List.mem_append.mp hx with hx | hx
        · exact hok x hx
        · simpa [List.mem_singleton.mp hx] using hokc
      have hcount' : ∀ e,
          (sel ++ [c]).countP (fun x => decide (x.episodeId = e)) ≤ maxPer := by
        intro e
        rw [List.countP_append]
        by_cases he : c.episodeId = e
        · have hlt : sel.countP (fun x => decide (x.episodeId = e)) < maxPer := by
            rw [← he]; exact h3
          have : ([c].countP (fun x => decide (x.episodeId = e))) = 1 := by
            simp [List.countP_cons, he]
          omega
        · have : ([c].countP (fun x => decide (x.episodeId = e))) = 0 := by
            simp [List.countP_cons, he]
          have := hcount e
          omega
      have hnool : ∀ x ∈ sel, noOverlapRel x c := by
        intro x hx heq hov
        exact h4 (List.any_eq_true.mpr
          ⟨x, hx, decide_eq_true ⟨heq, hov.1, hov.2⟩⟩)
      have hpair' : (sel ++ [c]).Pairwise noOverlapRel := by
        rw [List.pairwise_append]
        exact ⟨hpair, List.pairwise_singleton _ _, by
          intro x hx y hy
          rw [List.mem_singleton] at hy
          subst hy
          exact hnool x hx⟩
      first
        | -- stop branch: `totalDuration >= availableSeconds`, break and return
          exact ⟨hsum'.trans_le hle', hok', hcount', hpair'⟩
        | -- continue with the clip added
          exact ih (sel ++ [c]) (total + clipDur c) hsum' hle' hok' hcount' hpair'
    }

/-- C1. Every clip set returned by `selectClips` satisfies the selection
constraints: total selected duration at most `0.85 · T · 60`, at most
`maxClipsPerEpisode` clips per episode, every duration within
`[0.7 · effectiveMin, 1.3 · effectiveMax]`, and no same-episode overlap. -/
theorem selectClips_meets_selection_constraints
    (candidates : List ClipCandidate) (config : SelectionConfig) :
    ((selectClips candidates config).map clipDur).sum ≤
        0.85 * (config.targetLengthMinutes : ℚ) * 60 ∧
    (∀ e, (selectClips candidates config).countP
        (fun x => decide (x.episodeId = e)) ≤ maxClipsPerEpisode config) ∧
    (∀ c ∈ selectClips candidates config,
        0.7 * effectiveMin config ≤ clipDur c ∧
        clipDur c ≤ 1.3 * effectiveMax config) ∧
    (selectClips candidates config).Pairwise noOverlapRel := by
  have havail : availableSeconds config = 0.85 * (config.targetLengthMinutes : ℚ) * 60 := by
    unfold availableSeconds; ring
  by_cases hnil : candidates = []
  · refine ⟨?_, ?_, ?_, ?_⟩ <;> simp [selectClips, hnil]
    positivity
  · have h0 := selLoopGo_inv (effectiveMin config) (effectiveMax config)
      (availableSeconds config) (maxClipsPerEpisode config)
      (List.insertionSort scoreDescOrder candidates) [] 0
      (by simp) (by unfold availableSeconds; positivity)
      (by simp) (by simp) List.Pairwise.nil
    have hsel : selectClips candidates config =
        orderClipsByStructure
          (selLoopGo (effectiveMin config) (effectiveMax config)
            (availableSeconds config) (maxClipsPerEpisode config)
            (List.insertionSort scoreDescOrder candidates) [] 0)
          config.structurePref := by
      simp [selectClips, hnil]
    have hperm := orderClipsByStructure_perm
      (selLoopGo (effectiveMin config) (effectiveMax config)
        (availableSeconds config) (maxClipsPerEpisode config)
        (List.insertionSort scoreDescOrder candidates) [] 0)
      config.structurePref
    obtain ⟨hsum, hok, hcount, hpair⟩ := h0
    refine ⟨?_, ?_, ?_, ?_⟩
    · rw [hsel, (hperm.map clipDur).sum_eq, ← havail]; exact hsum
    · intro e; rw [hsel, hperm.countP_eq]; exact hcount e
    · intro c hc
      rw [hsel, hperm.mem_iff] at hc
      obtain ⟨hl, hr⟩ := hok c hc
      exact ⟨by linarith [hl], by linarith [hr]⟩
    · rw [hsel, hperm.pairwise_iff (fun hab => noOverlapRel_symm hab)]
      exact hpair

/-! ### Input-order dependence of `selectClips` (claim C2) -/

/-- Two lists sorted by score descending that are permutations of each
other and have pairwise-distinct scores are equal. -/
lemma sorted_perm_eq_of_nodup_scores :
    ∀ {l₁ l₂ : List ClipCandidate}, List.Perm l₁ l₂ →
      l₁.Sorted scoreDescOrder → l₂.Sorted scoreDescOrder →
      (l₁.map ClipCandidate.score).Nodup → l₁ = l₂ := by
  intro l₁
  induction l₁ with
  | nil =>
    intro l₂ hp _ _ _
    exact (hp.symm.eq_nil).symm
  | cons a t ih =>
    intro l₂ hp hs₁ hs₂ hnd
    match l₂ with
    | [] => exact absurd hp.eq_nil (by simp)
    | b :: t₂ =>
      have hab : a = b := by
        by_contra hne
        have ha2 : a ∈ b :: t₂ := hp.mem_iff.mp (List.mem_cons_self a t)
        have hat₂ : a ∈ t₂ := by
          rcases List.mem_cons.mp ha2 with h | h
          · exact absurd h hne
          · exact h
        have hb1 : b ∈ a :: t := hp.mem_iff.mpr (List.mem_cons_self b t₂)
        have hbt : b ∈ t := by
          rcases List.mem_cons.mp hb1 with h | h
          · exact absurd h.symm hne
          · exact h
        have h1 : a.score ≤ b.score := List.rel_of_sorted_cons hs₂ a hat₂
        have h2 : b.score ≤ a.score := List.rel_of_sorted_cons hs₁ b hbt
        have heq : b.score = a.score := le_antisymm h2 h1
        have hnd' : (∀ x ∈ t, ¬x.score = a.score) ∧
            (List.map ClipCandidate.score t).Nodup := by simpa using hnd
        exact hnd'.1 b hbt heq
      subst hab
      have htp : List.Perm t t₂ := hp.cons_inv
      have hnd' : (∀ x ∈ t, ¬x.score = a.score) ∧
          (List.map ClipCandidate.score t).Nodup := by simpa using hnd
      have := ih htp hs₁.of_cons hs₂.of_cons hnd'.2
      rw [this]

/-- C2 (amended). `selectClips` sorts by score descending only; the sort
is stable, so when all candidate scores are pairwise distinct the output
is independent of the input order of the candidate list. -/
theorem selectClips_deterministic_of_distinct_scores
    (l₁ l₂ : List ClipCandidate) (config : SelectionConfig)
    (hp : List.Perm l₁ l₂)
    (hnd : (l₁.map ClipCandidate.score).Nodup) :
    selectClips l₁ config = selectClips l₂ config := by
  have hperm : List.Perm (List.insertionSort scoreDescOrder l₁)
      (List.insertionSort scoreDescOrder l₂) :=
    (List.perm_insertionSort _ l₁).trans
      (hp.trans (List.perm_insertionSort _ l₂).symm)
  have hnd₁ : ((List.insertionSort scoreDescOrder l₁).map ClipCandidate.score).Nodup :=
    (((List.perm_insertionSort scoreDescOrder l₁).map ClipCandidate.score).nodup_iff).mpr hnd
  have hsorted : List.insertionSort scoreDescOrder l₁ =
      List.insertionSort scoreDescOrder l₂ :=
    sorted_perm_eq_of_nodup_scores hperm
      (List.sorted_insertionSort scoreDescOrder l₁)
      (List.sorted_insertionSort scoreDescOrder l₂) hnd₁
  by_cases h1 : l₁ = []
  · subst h1
    rw [hp.symm.eq_nil]
  · have h2 : l₂ ≠ [] := by
      intro h
      subst h
      exact h1 hp.eq_nil
    simp only [selectClips, if_neg h1, if_neg h2, hsorted]

/-- C2 (counterexample). The claim that the selected set is uniquely
determined by the candidate multiset fails: two equal-score candidates
yield different selections for the two input orders, because the source
sorts by score only (stable), with no startSec/episodeId tie-break. -/
theorem selectClips_depends_on_input_order :
    List.Perm
      [ClipCandidate.mk "e" "p" 0 200 50, ClipCandidate.mk "e" "p" 100 300 50]
      [ClipCandidate.mk "e" "p" 100 300 50, ClipCandidate.mk "e" "p" 0 200 50] ∧
    selectClips
      [ClipCandidate.mk "e" "p" 0 200 50, ClipCandidate.mk "e" "p" 100 300 50]
      (SelectionConfig.mk 30 "SHORT" 0 "BY_SCORE") ≠
    selectClips
      [ClipCandidate.mk "e" "p" 100 300 50, ClipCandidate.mk "e" "p" 0 200 50]
      (SelectionConfig.mk 30 "SHORT" 0 "BY_SCORE") := by
  constructor
  · exact List.Perm.swap _ _ _
  · have h1 : selectClips
        [ClipCandidate.mk "e" "p" 0 200 50, ClipCandidate.mk "e" "p" 100 300 50]
        (SelectionConfig.mk 30 "SHORT" 0 "BY_SCORE") =
        [ClipCandidate.mk "e" "p" 0 200 50] := by
      norm_num [selectClips, selLoopGo, orderClipsByStructure, effectiveMin,
        effectiveMax, availableSeconds, maxClipsPerEpisode, clipLengthRange,
        scoreDescOrder, clipDur, jsRound, List.insertionSort, List.orderedInsert]
      simp
    have h2 : selectClips
        [ClipCandidate.mk "e" "p" 100 300 50, ClipCandidate.mk "e" "p" 0 200 50]
        (SelectionConfig.mk 30 "SHORT" 0 "BY_SCORE") =
        [ClipCandidate.mk "e" "p" 100 300 50] := by
      norm_num [selectClips, selLoopGo, orderClipsByStructure, effectiveMin,
        effectiveMax, availableSeconds, maxClipsPerEpisode, clipLengthRange,
        scoreDescOrder, clipDur, jsRound, List.insertionSort, List.orderedInsert]
      simp
    rw [h1, h2]
    simp

/-- Witness for C1 at a concrete input: the selected clip's duration
lies in the effective band. -/
theorem selectClips_meets_selection_constraints_witness :
    0.7 * effectiveMin (SelectionConfig.mk 30 "SHORT" 0 "BY_SCORE") ≤
        clipDur (ClipCandidate.mk "e" "p" 0 200 50) ∧
    clipDur (ClipCandidate.mk "e" "p" 0 200 50) ≤
        1.3 * effectiveMax (SelectionConfig.mk 30 "SHORT" 0 "BY_SCORE") := by
  have hsel : selectClips [ClipCandidate.mk "e" "p" 0 200 50]
      (SelectionConfig.mk 30 "SHORT" 0 "BY_SCORE") =
      [ClipCandidate.mk "e" "p" 0 200 50] := by
    norm_num [selectClips, selLoopGo, orderClipsByStructure, effectiveMin,
      effectiveMax, availableSeconds, maxClipsPerEpisode, clipLengthRange,
      scoreDescOrder, clipDur, jsRound, List.insertionSort, List.orderedInsert]
  exact (selectClips_meets_selection_constraints
      [ClipCandidate.mk "e" "p" 0 200 50]
      (SelectionConfig.mk 30 "SHORT" 0 "BY_SCORE")).2.2.1
    (ClipCandidate.mk "e" "p" 0 200 50)
    (by rw [hsel]; exact List.mem_singleton_self _)

/-- Witness for the amended C2 theorem at a concrete input. -/
theorem selectClips_deterministic_of_distinct_scores_witness :
    selectClips
      [ClipCandidate.mk "e1" "p" 0 200 60, ClipCandidate.mk "e2" "p" 0 220 50]
      (SelectionConfig.mk 30 "SHORT" 0 "BY_SCORE") =
    selectClips
      [ClipCandidate.mk "e2" "p" 0 220 50, ClipCandidate.mk "e1" "p" 0 200 60]
      (SelectionConfig.mk 30 "SHORT" 0 "BY_SCORE") :=
  selectClips_deterministic_of_distinct_scores _ _ _
    (List.Perm.swap _ _ _) (by norm_num)

/-! ## Analyzer: region scoring (claim C3)

`scoreSegmentWindow` (and `analyzeEpisodeTranscript` in the single-call
variant) clamps each raw dimension value with `clampScore`, computes the
weighted score with `computeWeightedScore`, and drops the region when
the score is below `MIN_SCORE_THRESHOLD = 40`. A raw JSON dimension
value is modelled as `Option ℚ`: `some q` for a value whose JS
`Number(...)` conversion yields `q`, `none` for one that yields `NaN`. -/

/-- `clampScore(value)`: non-numeric becomes 0, numbers are rounded and
clamped into `[0, 100]` (`Math.max(0, Math.min(100, Math.round(num)))`). -/
def clampScore (value : Option ℚ) : ℤ :=
  match value with
  | none => 0
  | some num => max 0 (min 100 (jsRound num))

/-- The five clamped dimension scores (`ScoreDimensions`). -/
structure ScoreDimensions where
  insightDensity : ℤ
  emotionalIntensity : ℤ
  actionability : ℤ
  topicalRelevance : ℤ
  conversationalQuality : ℤ
deriving DecidableEq

/-- Raw dimension values as parsed from the LLM JSON response. -/
structure RawDimensions where
  insightDensity : Option ℚ
  emotionalIntensity : Option ℚ
  actionability : Option ℚ
  topicalRelevance : Option ℚ
  conversationalQuality : Option ℚ

/-- `computeWeightedScore` with the `DIMENSION_WEIGHTS` constants. -/
def computeWeightedScore (d : ScoreDimensions) : ℚ :=
  (d.insightDensity : ℚ) * 0.25 +
  (d.emotionalIntensity : ℚ) * 0.20 +
  (d.actionability : ℚ) * 0.20 +
  (d.topicalRelevance : ℚ) * 0.20 +
  (d.conversationalQuality : ℚ) * 0.15

/-- Clamping of all five raw dimensions. -/
def clampDimensions (raw : RawDimensions) : ScoreDimensions :=
  ⟨clampScore raw.insightDensity, clampScore raw.emotionalIntensity,
   clampScore raw.actionability, clampScore raw.topicalRelevance,
   clampScore raw.conversationalQuality⟩

/-- The deterministic core of `scoreSegmentWindow`: clamp the dimensions,
compute the weighted score, and drop the region (return `none`) when the
score is below the threshold `MIN_SCORE_THRESHOLD = 40`. -/
def scoreRegion (raw : RawDimensions) : Option (ScoreDimensions × ℚ) :=
  let dimensions := clampDimensions raw
  let score := computeWeightedScore dimensions
  if score < 40 then none else some (dimensions, score)

/-- C3. Every scored region has its five dimension values clamped to
integers in `[0, 100]` (non-numeric values becoming 0), its score equal
to `0.25·i + 0.20·e + 0.20·a + 0.20·r + 0.15·q`, and is dropped exactly
when that score is below 40. -/
theorem scoreRegion_clamps_weights_and_thresholds :
    (∀ v : Option ℚ, 0 ≤ clampScore v ∧ clampScore v ≤ 100) ∧
    clampScore none = 0 ∧
    (∀ raw : RawDimensions,
      (scoreRegion raw = none ↔
        0.25 * (clampScore raw.insightDensity : ℚ) +
        0.20 * (clampScore raw.emotionalIntensity : ℚ) +
        0.20 * (clampScore raw.actionability : ℚ) +
        0.20 * (clampScore raw.topicalRelevance : ℚ) +
        0.15 * (clampScore raw.conversationalQuality : ℚ) < 40) ∧
      ∀ p ∈ scoreRegion raw,
        p.1 = clampDimensions raw ∧
        p.2 = 0.25 * (p.1.insightDensity : ℚ) +
          0.20 * (p.1.emotionalIntensity : ℚ) +
          0.20 * (p.1.actionability : ℚ) +
          0.20 * (p.1.topicalRelevance : ℚ) +
          0.15 * (p.1.conversationalQuality : ℚ) ∧
        40 ≤ p.2) := by
  have hscore : ∀ d : ScoreDimensions, computeWeightedScore d =
      0.25 * (d.insightDensity : ℚ) + 0.20 * (d.emotionalIntensity : ℚ) +
      0.20 * (d.actionability : ℚ) + 0.20 * (d.topicalRelevance : ℚ) +
      0.15 * (d.conversationalQuality : ℚ) := by
    intro d
    unfold computeWeightedScore
    ring
  refine ⟨?_, rfl, ?_⟩
  · intro v
    match v with
    | none => simp [clampScore]
    | some q =>
      constructor
      · simp [clampScore]
      · simp only [clampScore]
        have : min 100 (jsRound q) ≤ 100 := min_le_left _ _
        omega
  · intro raw
    constructor
    · show (if computeWeightedScore (clampDimensions raw) < 40 then none
          else some (clampDimensions raw, computeWeightedScore (clampDimensions raw))) = none ↔ _
      rw [hscore]
      split_ifs with h
      · simpa using h
      · simpa using h
    · intro p hp
      have hp2 : p ∈ (if computeWeightedScore (clampDimensions raw) < 40 then none
          else some (clampDimensions raw, computeWeightedScore (clampDimensions raw))) := hp
      clear hp
      split_ifs at hp2 with h
      · exact absurd hp2 (by simp)
      · have hp' : p = (clampDimensions raw, computeWeightedScore (clampDimensions raw)) := by
          exact (by simpa using hp2 :
            (clampDimensions raw, computeWeightedScore (clampDimensions raw)) = p).symm
        subst hp'
        refine ⟨rfl, ?_, ?_⟩
        · exact hscore _
        · exact le_of_not_lt h

/-- Witness for C3 at a concrete scored region. -/
theorem scoreRegion_clamps_weights_and_thresholds_witness :
    (ScoreDimensions.mk 80 70 60 50 0, (56 : ℚ)).1 =
        clampDimensions ⟨some 80, some 70, some 60, some 50, none⟩ ∧
    (56 : ℚ) = 0.25 * ((80 : ℤ) : ℚ) + 0.20 * ((70 : ℤ) : ℚ) +
        0.20 * ((60 : ℤ) : ℚ) + 0.20 * ((50 : ℤ) : ℚ) + 0.15 * ((0 : ℤ) : ℚ) ∧
    (40 : ℚ) ≤ 56 := by
  have hmem : (ScoreDimensions.mk 80 70 60 50 0, (56 : ℚ)) ∈
      scoreRegion ⟨some 80, some 70, some 60, some 50, none⟩ := by
    rw [Option.mem_def]
    norm_num [scoreRegion, clampDimensions, clampScore, computeWeightedScore, jsRound]
  have h := (scoreRegion_clamps_weights_and_thresholds.2.2
    ⟨some 80, some 70, some 60, some 50, none⟩).2 _ hmem
  have hdim : clampDimensions ⟨some 80, some 70, some 60, some 50, none⟩ =
      ScoreDimensions.mk 80 70 60 50 0 := by
    norm_num [clampDimensions, clampScore, jsRound]
  refine ⟨h.1, ?_, h.2.2⟩
  have h2 := h.2.1
  rw [h.1, hdim] at h2
  simpa using h2

/-! ## Assembler: chapter index (claim C4)

Step 7 of `assembleDigest` builds chapter markers by walking the segment
playlist, accumulating each segment's duration plus one inter-segment
gap per boundary; a chapter is pushed only for segments of type `clip`
carrying a title. After rendering, the final file duration is probed;
the last chapter's `endTime` is clamped down to the probed value, and
the function returns `Math.round(probedDuration)` as `totalDuration`. -/

inductive SegmentType where
  | narration
  | clip
deriving DecidableEq

/-- One entry of the assembler's ordered segment playlist. -/
structure AudioSegment where
  segType : SegmentType
  duration : ℚ
  title : Option String
deriving DecidableEq

/-- A chapter marker. -/
structure Chapter where
  title : String
  startTime : ℚ
  endTime : ℚ
deriving DecidableEq

/-- `getTransitionDuration`: 0 for `SILENCE` (signalling the silence-gap
path), 0.6 for all other transition styles. -/
def getTransitionDuration (transitionStyle : String) : ℚ :=
  if transitionStyle = "SILENCE" then 0 else 0.6

/-- The chapter loop of `assembleDigest` step 7, carrying
`cumulativeTime`; the gap is added after every segment but the last. -/
def chaptersAux (gapDuration : ℚ) : List AudioSegment → ℚ → List Chapter
  | [], _ => []
  | s :: rest, cumulativeTime =>
    (match s.segType, s.title with
      | SegmentType.clip, some t =>
        [Chapter.mk t cumulativeTime (cumulativeTime + s.duration)]
      | _, _ => []) ++
    chaptersAux gapDuration rest
      (cumulativeTime + s.duration + (if rest = [] then 0 else gapDuration))

/-- Chapter construction with the gap selected from the transition
duration: `transitionDuration > 0 ? transitionDuration : 0.5`. -/
def buildChapters (segments : List AudioSegment) (transitionDuration : ℚ) :
    List Chapter :=
  chaptersAux (if 0 < transitionDuration then transitionDuration else 0.5)
    segments 0

/-- The final clamp: if the last chapter's `endTime` exceeds the probed
total duration, it is set to the probed duration. -/
def clampLastChapter : List Chapter → ℚ → List Chapter
  | [], _ => []
  | [c], totalDuration =>
    [if totalDuration < c.endTime then
        { c with endTime := totalDuration } else c]
  | c :: c' :: rest, totalDuration =>
    c :: clampLastChapter (c' :: rest) totalDuration

/-- The chapter-relevant result of `assembleDigest`: the chapter list
and the returned `totalDuration = Math.round(probed duration)`. -/
def assembleChapterIndex (transitionStyle : String)
    (segments : List AudioSegment) (probedDuration : ℚ) :
    List Chapter × ℤ :=
  (clampLastChapter
      (buildChapters segments (getTransitionDuration transitionStyle))
      probedDuration,
   jsRound probedDuration)

/-- The spec-side chapter formula: a chapter for exactly the titled clip
segments, in playlist order, whose `startTime` is the sum of the
durations of all preceding segments plus one gap per preceding segment
boundary and whose `endTime` adds the clip's own duration. -/
def chapterSpec (segments : List AudioSegment) (gapDuration : ℚ) : List Chapter :=
  (List.range segments.length).filterMap fun k =>
    match segments[k]? with
    | some s =>
      match s.segType, s.title with
      | SegmentType.clip, some t =>
        some (Chapter.mk t
          (((segments.take k).map AudioSegment.duration).sum + k * gapDuration)
          (((segments.take k).map AudioSegment.duration).sum + k * gapDuration
            + s.duration))
      | _, _ => none
    | none => none

lemma chaptersAux_eq (gapDuration : ℚ) :
    ∀ (segs : List AudioSegment) (cum : ℚ),
    chaptersAux gapDuration segs cum =
      (List.range segs.length).filterMap fun k =>
        match segs[k]? with
        | some s =>
          match s.segType, s.title with
          | SegmentType.clip, some t =>
            some (Chapter.mk t
              (cum + ((segs.take k).map AudioSegment.duration).sum + k * gapDuration)
              (cum + ((segs.take k).map AudioSegment.duration).sum + k * gapDuration
                + s.duration))
          | _, _ => none
        | none => none := by
  intro segs
  induction segs with
  | nil =>
    intro cum
    simp [chaptersAux]
  | cons s rest ih =>
    intro cum
    rw [chaptersAux]
    rcases List.eq_nil_or_concat rest with hrest | _
    · subst hrest
      cases hst : s.segType <;> cases hti : s.title <;>
        simp [chaptersAux, hst, hti, List.filterMap]
    · have hne : rest ≠ [] := by
        rintro rfl
        simp_all
      rw [if_neg hne, ih (cum + s.duration + gapDuration)]
      rw [List.length_cons, List.range_succ_eq_map, List.filterMap_cons,
        List.filterMap_map]
      have htail : ∀ k ∈ List.range rest.length,
          ((fun k =>
            match (s :: rest)[k]? with
            | some s' =>
              match s'.segType, s'.title with
              | SegmentType.clip, some t =>
                some (Chapter.mk t
                  (cum + (((s :: rest).take k).map AudioSegment.duration).sum
                    + k * gapDuration)
                  (cum + (((s :: rest).take k).map AudioSegment.duration).sum
                    + k * gapDuration + s'.duration))
              | _, _ => none
            | none => none) ∘ Nat.succ) k =
          (fun k =>
            match rest[k]? with
            | some s' =>
              match s'.segType, s'.title with
              | SegmentType.clip, some t =>
                some (Chapter.mk t
                  (cum + s.duration + gapDuration
                    + ((rest.take k).map AudioSegment.duration).sum + k * gapDuration)
                  (cum + s.duration + gapDuration
                    + ((rest.take k).map AudioSegment.duration).sum + k * gapDuration
                    + s'.duration))
              | _, _ => none
            | none => none) k := by
        intro k _
        simp only [Function.comp_apply, List.getElem?_cons_succ, List.take_succ_cons,
          List.map_cons, List.sum_cons]
        cases hk : rest[k]? with
        | none => rfl
        | some s' =>
          cases hst : s'.segType <;> cases hti : s'.title <;>
              simp only [hst, hti] <;>
            first
            | rfl
            | (simp only [Option.some.injEq, Chapter.mk.injEq,
                eq_self_iff_true, true_and]
               constructor <;> (push_cast; ring))
      rw [List.filterMap_congr htail]
      cases hst : s.segType <;> cases hti : s.title <;>
          simp [hst, hti, List.filterMap_cons] <;>
        first
        | rfl
        | (simp only [Option.some.injEq, Chapter.mk.injEq,
            eq_self_iff_true, true_and]
           constructor <;> (push_cast; ring))

lemma buildChapters_eq_spec (segments : List AudioSegment)
    (transitionStyle : String) :
    buildChapters segments (getTransitionDuration transitionStyle) =
      chapterSpec segments
        (if transitionStyle = "SILENCE" then 0.5 else 0.6) := by
  have hgap : (if 0 < getTransitionDuration transitionStyle then
      getTransitionDuration transitionStyle else (0.5 : ℚ)) =
      (if transitionStyle = "SILENCE" then (0.5 : ℚ) else 0.6) := by
    unfold getTransitionDuration
    by_cases h : transitionStyle = "SILENCE" <;> simp [h] <;> norm_num
  unfold buildChapters chapterSpec
  rw [hgap, chaptersAux_eq]
  apply List.filterMap_congr
  intro k _
  cases hk : segments[k]? with
  | none => rfl
  | some s =>
    cases hst : s.segType <;> cases hti : s.title <;>
        simp only [hst, hti] <;>
      first
      | rfl
      | (simp only [Option.some.injEq, Chapter.mk.injEq,
          eq_self_iff_true, true_and]
         constructor <;> (push_cast; ring))

lemma clampLastChapter_last_le :
    ∀ (l : List Chapter) (td : ℚ) (c : Chapter),
      (clampLastChapter l td).getLast? = some c → c.endTime ≤ td := by
  intro l
  induction l with
  | nil =>
    intro td c h
    simp [clampLastChapter] at h
  | cons c' l' ih =>
    intro td c h
    cases l' with
    | nil =>
      rw [clampLastChapter] at h
      split_ifs at h with hlt
      · simp at h
        subst h
        rfl
      · simp at h
        subst h
        exact le_of_not_lt hlt
    | cons c'' rest =>
      rw [clampLastChapter] at h
      have hne : clampLastChapter (c'' :: rest) td ≠ [] := by
        cases rest <;> simp [clampLastChapter]
      obtain ⟨hd, tl, heq⟩ := List.exists_cons_of_ne_nil hne
      rw [heq, List.getLast?_cons_cons, ← heq] at h
      exact ih td c h

/-- C4 (amended). Chapters are emitted only for clip segments, in
playlist order, with `startSec` the sum of preceding segment durations
plus one gap (0.5 s for silence, 0.6 s otherwise) per preceding
boundary and `endSec = startSec + duration`; the final chapter's
`endSec` is clamped to (and hence never exceeds) the probed file
duration, while the returned `totalDurationSec` is the probed duration
rounded to the nearest integer and may be smaller. -/
theorem assembleChapterIndex_spec (transitionStyle : String)
    (segments : List AudioSegment) (probedDuration : ℚ) :
    (assembleChapterIndex transitionStyle segments probedDuration).1 =
      clampLastChapter
        (chapterSpec segments
          (if transitionStyle = "SILENCE" then 0.5 else 0.6))
        probedDuration ∧
    (∀ c, (assembleChapterIndex transitionStyle segments probedDuration).1.getLast?
        = some c → c.endTime ≤ probedDuration) := by
  constructor
  · unfold assembleChapterIndex
    rw [buildChapters_eq_spec]
  · intro c h
    exact clampLastChapter_last_le _ _ _ h

/-- C4 (counterexample). The claim that the last chapter's `endSec`
never exceeds the returned `totalDurationSec` fails: with a single clip
segment of duration 100.4 s and a probed duration of 100.4 s, the
chapter ends at 100.4 while the returned total duration is
`Math.round(100.4) = 100`. -/
theorem assembleChapterIndex_last_end_exceeds_total :
    assembleChapterIndex "SILENCE"
        [AudioSegment.mk SegmentType.clip 100.4 (some "t")] 100.4 =
      ([Chapter.mk "t" 0 100.4], 100) ∧
    ((100 : ℤ) : ℚ) < 100.4 := by
  constructor
  · norm_num [assembleChapterIndex, buildChapters, chaptersAux,
      clampLastChapter, getTransitionDuration, jsRound]
  · norm_num

/-- Witness for the amended C4 theorem at a concrete input. -/
theorem assembleChapterIndex_spec_witness :
    (assembleChapterIndex "SILENCE"
        [AudioSegment.mk SegmentType.clip 100.4 (some "t")] 100.4).1 =
      clampLastChapter
        (chapterSpec [AudioSegment.mk SegmentType.clip 100.4 (some "t")]
          (if "SILENCE" = "SILENCE" then 0.5 else 0.6)) 100.4 ∧
    Chapter.endTime (Chapter.mk "t" 0 100.4) ≤ 100.4 := by
  constructor
  · exact (assembleChapterIndex_spec "SILENCE" _ 100.4).1
  · apply (assembleChapterIndex_spec "SILENCE"
      [AudioSegment.mk SegmentType.clip 100.4 (some "t")] 100.4).2
    norm_num [assembleChapterIndex, buildChapters, chaptersAux,
      clampLastChapter, getTransitionDuration]

/-! ## JS string model

`String.prototype.trim` and `String.prototype.split` are modelled over
`List Char` (written `JStr`), which the kernel can evaluate. `wsChar`
covers the ASCII whitespace characters relevant here (JS also strips
further Unicode whitespace). -/

/-- JS strings, as character lists. -/
abbrev JStr := List Char

/-- ASCII whitespace (model of the JS whitespace class). -/
def wsChar (c : Char) : Bool :=
  c == ' ' || c == '\t' || c == '\n' || c == '\r'

/-- `s.trim()`: strip leading and trailing whitespace. -/
def trimL (s : JStr) : JStr :=
  ((s.dropWhile wsChar).reverse.dropWhile wsChar).reverse

/-- `s.split(sep)` for a non-empty separator, by fuel recursion (the
fuel is the string length, so it never runs out). -/
def splitOnFuel (sep : JStr) : ℕ → JStr → List JStr
  | _, [] => [[]]
  | 0, s => [s]
  | Nat.succ n, c :: rest =>
    if sep ≠ [] ∧ sep.isPrefixOf (c :: rest) then
      [] :: splitOnFuel sep n ((c :: rest).drop sep.length)
    else
      match splitOnFuel sep n rest with
      | [] => [[c]]
      | p :: ps => (c :: p) :: ps

/-- `s.split(sep)` -/
def splitOnL (sep s : JStr) : List JStr :=
  splitOnFuel sep s.length s

/-! ## Narrator: script splitting (claim C5)

`generateNarrationScripts` joins the LLM text blocks, splits the result
on the fixed delimiter `---SCRIPT---`, trims each part and drops empty
parts, validates the part count, and assembles the typed script list. -/

inductive ScriptType where
  | intro
  | transition
  | outro
deriving DecidableEq

structure NarrationScript where
  scriptType : ScriptType
  text : JStr
  position : ℕ
deriving DecidableEq

/-- The fixed script delimiter token. -/
def scriptDelimiter : JStr := "---SCRIPT---".data

/-- `scriptTexts`: split the response on the delimiter, trim each part,
keep the non-empty parts. -/
def narrationPartsOf (responseText : JStr) : List JStr :=
  ((splitOnL scriptDelimiter responseText).map trimL).filter
    (fun s => decide (0 < s.length))

/-- The split-validate-assemble core of `generateNarrationScripts`,
with `numClips = clips.length`. On success the intro takes part 0,
transition `i` takes part `i`, and the outro takes the last part. -/
def parseNarrationScripts (responseText : JStr) (numClips : ℕ) :
    Except String (List NarrationScript) :=
  let scriptTexts := narrationPartsOf responseText
  let expectedCount := numClips + 2
  if scriptTexts.length < expectedCount then
    Except.error
      s!"Expected {expectedCount} narration scripts but received {scriptTexts.length}"
  else
    Except.ok
      (NarrationScript.mk ScriptType.intro (scriptTexts.getD 0 []) 0 ::
        ((List.range numClips).map fun i =>
          NarrationScript.mk ScriptType.transition (scriptTexts.getD (i + 1) []) (i + 1)) ++
        [NarrationScript.mk ScriptType.outro
          (scriptTexts.getD (scriptTexts.length - 1) []) (numClips + 1)])

/-- C5 (amended). The response is split on the fixed delimiter; an error
is raised exactly when the number of non-empty trimmed parts is *less
than* `N + 2` (a surplus is accepted); on success exactly `N + 2`
scripts are returned, the intro from part 0 at position 0, transition
`i` from part `i` at position `i`, and the outro — from the *last*
part — at position `N + 1`. -/
theorem parseNarrationScripts_spec (responseText : JStr) (numClips : ℕ) :
    ((narrationPartsOf responseText).length < numClips + 2 →
      parseNarrationScripts responseText numClips =
        Except.error
          s!"Expected {numClips + 2} narration scripts but received {(narrationPartsOf responseText).length}") ∧
    (numClips + 2 ≤ (narrationPartsOf responseText).length →
      parseNarrationScripts responseText numClips =
        Except.ok
          (NarrationScript.mk ScriptType.intro
              ((narrationPartsOf responseText).getD 0 []) 0 ::
            ((List.range numClips).map fun i =>
              NarrationScript.mk ScriptType.transition
                ((narrationPartsOf responseText).getD (i + 1) []) (i + 1)) ++
            [NarrationScript.mk ScriptType.outro
              ((narrationPartsOf responseText).getD
                ((narrationPartsOf responseText).length - 1) [])
              (numClips + 1)]) ∧
      (NarrationScript.mk ScriptType.intro
          ((narrationPartsOf responseText).getD 0 []) 0 ::
        ((List.range numClips).map fun i =>
          NarrationScript.mk ScriptType.transition
            ((narrationPartsOf responseText).getD (i + 1) []) (i + 1)) ++
        [NarrationScript.mk ScriptType.outro
          ((narrationPartsOf responseText).getD
            ((narrationPartsOf responseText).length - 1) [])
          (numClips + 1)]).length = numClips + 2) := by
  constructor
  · intro h
    unfold parseNarrationScripts
    rw [if_pos h]
  · intro h
    have hnl : ¬((narrationPartsOf responseText).length < numClips + 2) :=
      not_lt.mpr h
    constructor
    · unfold parseNarrationScripts
      rw [if_neg hnl]
    · simp

/-- C5 (counterexample). With `N = 1` clip and a response splitting into
4 non-empty parts, the claimed "error whenever the count is not exactly
N + 2" fails: the count is 4 ≠ 3, yet the function succeeds, taking the
outro from the last part. -/
theorem parseNarrationScripts_accepts_surplus_parts :
    (narrationPartsOf "a---SCRIPT---b---SCRIPT---c---SCRIPT---d".data).length = 4 ∧
    (4 ≠ 1 + 2) ∧
    parseNarrationScripts "a---SCRIPT---b---SCRIPT---c---SCRIPT---d".data 1 =
      Except.ok
        [NarrationScript.mk ScriptType.intro "a".data 0,
         NarrationScript.mk ScriptType.transition "b".data 1,
         NarrationScript.mk ScriptType.outro "d".data 2] := by
  refine ⟨by decide, by decide, by rfl⟩

/-- Witness for the amended C5 theorem at a concrete input. -/
theorem parseNarrationScripts_spec_witness :
    parseNarrationScripts "a---SCRIPT---b---SCRIPT---c---SCRIPT---d".data 1 =
      Except.ok
        (NarrationScript.mk ScriptType.intro
            ((narrationPartsOf
              "a---SCRIPT---b---SCRIPT---c---SCRIPT---d".data).getD 0 []) 0 ::
          ((List.range 1).map fun i =>
            NarrationScript.mk ScriptType.transition
              ((narrationPartsOf
                "a---SCRIPT---b---SCRIPT---c---SCRIPT---d".data).getD (i + 1) [])
              (i + 1)) ++
          [NarrationScript.mk ScriptType.outro
            ((narrationPartsOf
              "a---SCRIPT---b---SCRIPT---c---SCRIPT---d".data).getD
              ((narrationPartsOf
                "a---SCRIPT---b---SCRIPT---c---SCRIPT---d".data).length - 1) [])
            (1 + 1)]) :=
  ((parseNarrationScripts_spec
      "a---SCRIPT---b---SCRIPT---c---SCRIPT---d".data 1).2 (by decide)).1

/-! ## Feed crawler: duration parsing (claim C6)

`parseDuration` accepts a pure digit string (seconds), `H:M:S`, or
`M:S`, and returns `null` otherwise. `Number(part)` is modelled by
`jsNumberL` on the numeric fragment relevant here: whitespace-trimmed,
empty string is 0, optional sign, integer and decimal numerals; other
numeric forms JS would accept (hex, exponent, `Infinity`) are modelled
as `NaN` (`none`) and are exercised by no theorem below. -/

/-- `s.split(c)` for a single-character separator. -/
def splitOnChar (c : Char) : JStr → List JStr
  | [] => [[]]
  | a :: rest =>
    match splitOnChar c rest with
    | [] => [[a]]
    | p :: ps => if a = c then [] :: p :: ps else (a :: p) :: ps

/-- Decimal value of a digit character. -/
def digitVal (c : Char) : ℕ := c.toNat - 48

/-- `parseInt(s, 10)` for an all-digit string. -/
def digitsToNat (s : JStr) : ℕ := s.foldl (fun acc c => 10 * acc + digitVal c) 0

/-- The regex test `/^\d+$/`. -/
def isDigitsL (s : JStr) : Bool := !s.isEmpty && s.all Char.isDigit

/-- Magnitude part of `Number(...)`: integer or decimal numeral. -/
def jsNumMag (l : JStr) : Option ℚ :=
  if l ≠ [] ∧ l.all Char.isDigit = true then some ((digitsToNat l : ℕ) : ℚ)
  else
    match splitOnChar '.' l with
    | [a, b] =>
      if (a ++ b) ≠ [] ∧ (a ++ b).all Char.isDigit = true then
        some ((digitsToNat a : ℚ) + (digitsToNat b : ℚ) / 10 ^ b.length)
      else none
    | _ => none

/-- Model of JS `Number(s)` on its numeric fragment; `none` is `NaN`. -/
def jsNumberL (s : JStr) : Option ℚ :=
  let t := trimL s
  if t = [] then some 0
  else if t.head? = some '-' then (jsNumMag t.tail).map (fun q => -q)
  else if t.head? = some '+' then jsNumMag t.tail
  else jsNumMag t

/-- The NaN check and the length dispatch of `parseDuration`:
`null` if any part is NaN, else the 3-part and 2-part combinations. -/
def combineParts (parts : List (Option ℚ)) : Option ℚ :=
  if parts.any (fun p => p.isNone) then none
  else
    match parts with
    | [some h, some m, some ssec] => some (h * 3600 + m * 60 + ssec)
    | [some m, some ssec] => some (m * 60 + ssec)
    | _ => none

/-- `parseDuration(durationStr)` -/
def parseDuration (durationStr : Option JStr) : Option ℚ :=
  match durationStr with
  | none => none
  | some s =>
    if s = [] then none
    else
      let trimmed := trimL s
      if trimmed = [] then none
      else if isDigitsL trimmed then some ((digitsToNat trimmed : ℕ) : ℚ)
      else combineParts ((splitOnChar ':' trimmed).map jsNumberL)

/-! ### Supporting lemmas for C6 -/

lemma dropWhile_eq_self_of_all {p : Char → Bool} :
    ∀ {l : JStr}, (∀ c ∈ l, p c = false) → l.dropWhile p = l := by
  intro l h
  cases l with
  | nil => rfl
  | cons a t =>
    rw [List.dropWhile_cons, h a (List.mem_cons_self a t)]
    simp

lemma trimL_eq_self {s : JStr} (h : ∀ c ∈ s, wsChar c = false) :
    trimL s = s := by
  unfold trimL
  rw [dropWhile_eq_self_of_all h,
    dropWhile_eq_self_of_all (by simpa using h), List.reverse_reverse]

lemma trimL_eq_nil {s : JStr} (h : ∀ c ∈ s, wsChar c = true) :
    trimL s = [] := by
  unfold trimL
  have h1 : s.dropWhile wsChar = [] := List.dropWhile_eq_nil_iff.mpr h
  rw [h1]
  rfl

lemma not_ws_of_digit {c : Char} (h : c.isDigit = true) : wsChar c = false := by
  by_contra hws
  rw [Bool.not_eq_false] at hws
  simp only [wsChar, Bool.or_eq_true, beq_iff_eq] at hws
  rcases hws with ((rfl | rfl) | rfl) | rfl <;> exact absurd h (by decide)

lemma splitOnChar_ne_nil (c : Char) : ∀ s : JStr, splitOnChar c s ≠ [] := by
  intro s
  cases s with
  | nil => simp [splitOnChar]
  | cons a rest =>
    rw [splitOnChar]
    cases h : splitOnChar c rest with
    | nil => simp
    | cons p ps =>
      by_cases hac : a = c <;> simp [hac]

lemma splitOnChar_cons_sep (c : Char) (ys : JStr) :
    splitOnChar c (c :: ys) = [] :: splitOnChar c ys := by
  rw [splitOnChar]
  cases h : splitOnChar c ys with
  | nil => exact absurd h (splitOnChar_ne_nil c ys)
  | cons p ps => simp

lemma splitOnChar_append_of_not_mem (c : Char) :
    ∀ (xs ys : JStr), c ∉ xs →
      splitOnChar c (xs ++ c :: ys) = xs :: splitOnChar c ys := by
  intro xs
  induction xs with
  | nil =>
    intro ys _
    simpa using splitOnChar_cons_sep c ys
  | cons a xs' ih =>
    intro ys hmem
    have hac : a ≠ c := fun h => hmem (h ▸ List.mem_cons_self a xs')
    have hx' : c ∉ xs' := fun h => hmem (List.mem_cons_of_mem a h)
    rw [List.cons_append, splitOnChar, ih ys hx']
    simp [hac]

lemma splitOnChar_of_not_mem (c : Char) :
    ∀ (xs : JStr), c ∉ xs → splitOnChar c xs = [xs] := by
  intro xs
  induction xs with
  | nil => intro; rfl
  | cons a xs' ih =>
    intro hmem
    have hac : a ≠ c := fun h => hmem (h ▸ List.mem_cons_self a xs')
    have hx' : c ∉ xs' := fun h => hmem (List.mem_cons_of_mem a h)
    rw [splitOnChar, ih hx']
    simp [hac]

lemma colon_not_mem_of_digits {d : JStr} (hd : d.all Char.isDigit = true) :
    ':' ∉ d := by
  intro hmem
  have := List.all_eq_true.mp hd _ hmem
  exact absurd this (by decide)

lemma jsNumberL_digits {d : JStr} (hne : d ≠ []) (hd : d.all Char.isDigit = true) :
    jsNumberL d = some ((digitsToNat d : ℕ) : ℚ) := by
  have hall : ∀ c ∈ d, wsChar c = false := fun c hc =>
    not_ws_of_digit (List.all_eq_true.mp hd c hc)
  have ht : trimL d = d := trimL_eq_self hall
  obtain ⟨a, t, rfl⟩ := List.exists_cons_of_ne_nil hne
  have ha : a.isDigit = true := List.all_eq_true.mp hd a (List.mem_cons_self a t)
  have hm : a ≠ '-' := by rintro rfl; exact absurd ha (by decide)
  have hp : a ≠ '+' := by rintro rfl; exact absurd ha (by decide)
  unfold jsNumberL
  rw [ht]
  rw [if_neg (by simp), if_neg (by simp [hm]), if_neg (by simp [hp])]
  unfold jsNumMag
  rw [if_pos ⟨by simp, hd⟩]

/-- C6. `parseDuration` satisfies the round-trip laws on `"h:m:s"`,
`"m:s"` and pure digit strings (with `h`, `m`, `s` written as non-empty
digit strings), and returns the unknown value (`none`) on every
malformed input: `undefined`, empty or all-whitespace strings, a
colon-separated part on which `Number` yields NaN, and a part count
other than 2 or 3. -/
theorem parseDuration_round_trip_and_malformed :
    (∀ hd md sd : JStr, hd ≠ [] → md ≠ [] → sd ≠ [] →
      hd.all Char.isDigit = true → md.all Char.isDigit = true →
      sd.all Char.isDigit = true →
      parseDuration (some (hd ++ ':' :: (md ++ ':' :: sd))) =
        some (3600 * (digitsToNat hd : ℚ) + 60 * (digitsToNat md : ℚ)
          + (digitsToNat sd : ℚ))) ∧
    (∀ md sd : JStr, md ≠ [] → sd ≠ [] →
      md.all Char.isDigit = true → sd.all Char.isDigit = true →
      parseDuration (some (md ++ ':' :: sd)) =
        some (60 * (digitsToNat md : ℚ) + (digitsToNat sd : ℚ))) ∧
    (∀ nd : JStr, nd ≠ [] → nd.all Char.isDigit = true →
      parseDuration (some nd) = some ((digitsToNat nd : ℕ) : ℚ)) ∧
    parseDuration none = none ∧
    (∀ s : JStr, (∀ c ∈ s, wsChar c = true) → parseDuration (some s) = none) ∧
    (∀ s : JStr, ¬isDigitsL (trimL s) = true →
      (∃ p ∈ splitOnChar ':' (trimL s), jsNumberL p = none) →
      parseDuration (some s) = none) ∧
    (∀ s : JStr, ¬isDigitsL (trimL s) = true →
      (splitOnChar ':' (trimL s)).length ≠ 2 →
      (splitOnChar ':' (trimL s)).length ≠ 3 →
      parseDuration (some s) = none) := by
  have hsplit3 : ∀ hd md sd : JStr,
      hd.all Char.isDigit = true → md.all Char.isDigit = true →
      sd.all Char.isDigit = true →
      splitOnChar ':' (hd ++ ':' :: (md ++ ':' :: sd)) = [hd, md, sd] := by
    intro hd md sd h1 h2 h3
    rw [splitOnChar_append_of_not_mem ':' hd _ (colon_not_mem_of_digits h1),
      splitOnChar_append_of_not_mem ':' md _ (colon_not_mem_of_digits h2),
      splitOnChar_of_not_mem ':' sd (colon_not_mem_of_digits h3)]
  have hsplit2 : ∀ md sd : JStr,
      md.all Char.isDigit = true → sd.all Char.isDigit = true →
      splitOnChar ':' (md ++ ':' :: sd) = [md, sd] := by
    intro md sd h2 h3
    rw [splitOnChar_append_of_not_mem ':' md _ (colon_not_mem_of_digits h2),
      splitOnChar_of_not_mem ':' sd (colon_not_mem_of_digits h3)]
  have hnws : ∀ (l : JStr), l.all Char.isDigit = true → ∀ c ∈ l, wsChar c = false :=
    fun l hl c hc => not_ws_of_digit (List.all_eq_true.mp hl c hc)
  have hnotdig : ∀ (str : JStr), ':' ∈ str → isDigitsL str = false := by
    intro str hmem
    have hall : str.all Char.isDigit = false := by
      cases hall : str.all Char.isDigit with
      | false => rfl
      | true => exact absurd (List.all_eq_true.mp hall ':' hmem) (by decide)
    simp [isDigitsL, hall]
  refine ⟨?_, ?_, ?_, rfl, ?_, ?_, ?_⟩
  · -- "h:m:s"
    intro hd md sd hne1 hne2 hne3 h1 h2 h3
    have hsne : hd ++ ':' :: (md ++ ':' :: sd) ≠ [] := by simp
    have hallws : ∀ c ∈ hd ++ ':' :: (md ++ ':' :: sd), wsChar c = false := by
      intro c hc
      rcases List.mem_append.mp hc with h | h
      · exact hnws hd h1 c h
      · rcases List.mem_cons.mp h with rfl | h
        · decide
        · rcases List.mem_append.mp h with h | h
          · exact hnws md h2 c h
          · rcases List.mem_cons.mp h with rfl | h
            · decide
            · exact hnws sd h3 c h
    have htrim := trimL_eq_self hallws
    have hcolon : ':' ∈ hd ++ ':' :: (md ++ ':' :: sd) :=
      List.mem_append.mpr (Or.inr (List.mem_cons_self _ _))
    simp only [parseDuration, if_neg hsne, htrim, hnotdig _ hcolon,
      Bool.false_eq_true, if_false, hsplit3 hd md sd h1 h2 h3,
      List.map_cons, List.map_nil, jsNumberL_digits hne1 h1,
      jsNumberL_digits hne2 h2, jsNumberL_digits hne3 h3]
    simp [combineParts]
    ring
  · -- "m:s"
    intro md sd hne2 hne3 h2 h3
    have hsne : md ++ ':' :: sd ≠ [] := by simp
    have hallws : ∀ c ∈ md ++ ':' :: sd, wsChar c = false := by
      intro c hc
      rcases List.mem_append.mp hc with h | h
      · exact hnws md h2 c h
      · rcases List.mem_cons.mp h with rfl | h
        · decide
        · exact hnws sd h3 c h
    have htrim := trimL_eq_self hallws
    have hcolon : ':' ∈ md ++ ':' :: sd :=
      List.mem_append.mpr (Or.inr (List.mem_cons_self _ _))
    simp only [parseDuration, if_neg hsne, htrim, hnotdig _ hcolon,
      Bool.false_eq_true, if_false, hsplit2 md sd h2 h3,
      List.map_cons, List.map_nil, jsNumberL_digits hne2 h2,
      jsNumberL_digits hne3 h3]
    simp [combineParts]
    ring
  · -- pure digit string
    intro nd hne hd
    have hallws := hnws nd hd
    have htrim := trimL_eq_self hallws
    have hdig : isDigitsL nd = true := by
      simp [isDigitsL, hne, hd]
    simp only [parseDuration, if_neg hne, htrim, hdig, if_true]
  · -- all-whitespace (includes the empty string)
    intro s hws
    by_cases hs : s = []
    · simp [parseDuration, hs]
    · have htn : trimL s = [] := trimL_eq_nil hws
      simp [parseDuration, hs, htn]
  · -- a part on which Number yields NaN
    intro s hnd hex
    obtain ⟨p, hp, hpn⟩ := hex
    by_cases hs : s = []
    · simp [parseDuration, hs]
    · by_cases ht : trimL s = []
      · simp [parseDuration, hs, ht]
      · have hany : ((splitOnChar ':' (trimL s)).map jsNumberL).any
            (fun p => p.isNone) = true := by
          rw [List.any_eq_true]
          exact ⟨jsNumberL p, List.mem_map_of_mem jsNumberL hp, by simp [hpn]⟩
        rw [Bool.not_eq_true] at hnd
        simp only [parseDuration, if_neg hs, if_neg ht, hnd,
          Bool.false_eq_true, if_false, combineParts, hany, if_true]
  · -- wrong number of colon-separated parts
    intro s hnd h2 h3
    by_cases hs : s = []
    · simp [parseDuration, hs]
    · by_cases ht : trimL s = []
      · simp [parseDuration, hs, ht]
      · rw [Bool.not_eq_true] at hnd
        have hlen2 : ((splitOnChar ':' (trimL s)).map jsNumberL).length ≠ 2 := by
          simpa using h2
        have hlen3 : ((splitOnChar ':' (trimL s)).map jsNumberL).length ≠ 3 := by
          simpa using h3
        simp only [parseDuration, if_neg hs, if_neg ht, hnd,
          Bool.false_eq_true, if_false, combineParts]
        split_ifs with hany
        · rfl
        · generalize ((splitOnChar ':' (trimL s)).map jsNumberL) = parts
            at hlen2 hlen3
          match parts with
          | [] => rfl
          | [a] => cases a <;> rfl
          | [a, b] => exact absurd rfl hlen2
          | [a, b, c] => exact absurd rfl hlen3
          | a :: b :: c :: d :: rest =>
            cases a <;> cases b <;> cases c <;> rfl

/-- Witness for C6 at concrete inputs. -/
theorem parseDuration_round_trip_and_malformed_witness :
    parseDuration (some "1:2:3".data) = some 3723 ∧
    parseDuration (some "2:3".data) = some 123 ∧
    parseDuration (some "90".data) = some 90 ∧
    parseDuration (some "a:b".data) = none ∧
    parseDuration (some "1:2:3:4".data) = none := by
  obtain ⟨hms, ms, nd, _, _, nan, len⟩ := parseDuration_round_trip_and_malformed
  refine ⟨?_, ?_, ?_, ?_, ?_⟩
  · have h := hms "1".data "2".data "3".data (by decide) (by decide) (by decide)
      (by decide) (by decide) (by decide)
    rw [show ("1:2:3".data : JStr) = "1".data ++ ':' :: ("2".data ++ ':' :: "3".data)
      from by decide, h]
    norm_num [show digitsToNat "1".data = 1 from by decide,
      show digitsToNat "2".data = 2 from by decide,
      show digitsToNat "3".data = 3 from by decide]
  · have h := ms "2".data "3".data (by decide) (by decide) (by decide) (by decide)
    rw [show ("2:3".data : JStr) = "2".data ++ ':' :: "3".data from by decide, h]
    norm_num [show digitsToNat "2".data = 2 from by decide,
      show digitsToNat "3".data = 3 from by decide]
  · have h := nd "90".data (by decide) (by decide)
    rw [h]
    norm_num [show digitsToNat "90".data = 90 from by decide]
  · exact nan "a:b".data (by decide) ⟨"a".data, by decide, by decide⟩
  · exact len "1:2:3:4".data (by decide) (by decide) (by decide)

/-! ## Digest status (shared by claims C7, C8, C9)

The Prisma enum values `PENDING`, `CRAWLING`, `TRANSCRIBING`,
`ANALYZING`, `NARRATING`, `ASSEMBLING`, `DELIVERING`, `COMPLETED`,
`FAILED` are embedded as an inductive type. -/

inductive DigestStatus where
  | pending
  | crawling
  | transcribing
  | analyzing
  | narrating
  | assembling
  | delivering
  | completed
  | failed
deriving DecidableEq

/-! ## Crawl worker: fallback and failure (claim C7)

The crawl worker first crawls the user's active subscriptions; when no
new episode is found it falls back to querying the episodes of active
subscriptions published at or after `weekStart`, most recent first,
limited to 50; when that is also empty it throws, and the catch block
marks the digest `FAILED` with the thrown message and never enqueues the
transcribe job. -/

/-- An episode row as seen by the fallback query: its id, publish
timestamp, and whether some active subscription of the user reaches it. -/
structure EpisodeRow where
  id : String
  publishedAt : ℚ
  activeSubscription : Bool
deriving DecidableEq

/-- `orderBy: { publishedAt: "desc" }` as a stable-sort relation. -/
def recentFirst (a b : EpisodeRow) : Prop := b.publishedAt ≤ a.publishedAt

instance : DecidableRel recentFirst :=
  fun a b => (inferInstance : Decidable (b.publishedAt ≤ a.publishedAt))

instance : IsTotal EpisodeRow recentFirst :=
  ⟨fun a b => le_total b.publishedAt a.publishedAt⟩

instance : IsTrans EpisodeRow recentFirst :=
  ⟨fun _ _ _ h1 h2 => le_trans h2 h1⟩

/-- The fallback query: active subscription, `publishedAt ≥ weekStart`,
most recent first, `take: 50`. -/
def fallbackRows (episodes : List EpisodeRow) (weekStart : ℚ) : List EpisodeRow :=
  (List.insertionSort recentFirst
    (episodes.filter
      (fun e => e.activeSubscription && decide (weekStart ≤ e.publishedAt)))).take 50

/-- `select: { id: true }` over the fallback query. -/
def fallbackEpisodeIds (episodes : List EpisodeRow) (weekStart : ℚ) : List String :=
  (fallbackRows episodes weekStart).map EpisodeRow.id

/-- Outcome of the crawl worker body: either the transcribe job is
enqueued with the chosen episode ids, or the digest is marked `FAILED`
with an error message and nothing is enqueued. -/
inductive CrawlOutcome where
  | enqueueTranscribe (episodeIds : List String)
  | failDigest (error : String)
deriving DecidableEq

/-- The decision logic of the crawl worker after `crawlSubscribedFeeds`
returned `newEpisodeIds`. -/
def crawlProcess (newEpisodeIds : List String) (episodes : List EpisodeRow)
    (weekStart : ℚ) : CrawlOutcome :=
  let episodeIds :=
    if newEpisodeIds = [] then fallbackEpisodeIds episodes weekStart
    else newEpisodeIds
  if episodeIds = [] then
    CrawlOutcome.failDigest "No episodes found for digest — nothing to process"
  else
    CrawlOutcome.enqueueTranscribe episodeIds

/-- C7 (counterexample). When the crawl and the fallback both yield zero
episodes, the digest is failed with the message
`"No episodes found for digest — nothing to process"`, not with the
claimed error string `"no-episodes"`. -/
theorem crawlProcess_error_string_is_not_no_episodes :
    crawlProcess [] [] 0 =
      CrawlOutcome.failDigest "No episodes found for digest — nothing to process" ∧
    "No episodes found for digest — nothing to process" ≠ "no-episodes" := by
  exact ⟨rfl, by decide⟩

/-- C7 (amended). With zero new episodes the crawl stage falls back to
at most 50 episodes of the user's active subscriptions published at or
after `weekStart`, most recent first; when the fallback is also empty
the stage fails — the digest is marked failed with the error
`"No episodes found for digest — nothing to process"` — and the
transcribe stage is never enqueued. -/
theorem crawlProcess_fallback_spec (newEpisodeIds : List String)
    (episodes : List EpisodeRow) (weekStart : ℚ) :
    (newEpisodeIds = [] → fallbackEpisodeIds episodes weekStart ≠ [] →
      crawlProcess newEpisodeIds episodes weekStart =
        CrawlOutcome.enqueueTranscribe (fallbackEpisodeIds episodes weekStart)) ∧
    (newEpisodeIds = [] → fallbackEpisodeIds episodes weekStart = [] →
      crawlProcess newEpisodeIds episodes weekStart =
        CrawlOutcome.failDigest
          "No episodes found for digest — nothing to process") ∧
    (fallbackRows episodes weekStart).length ≤ 50 ∧
    (∀ e ∈ fallbackRows episodes weekStart,
      e ∈ episodes ∧ e.activeSubscription = true ∧ weekStart ≤ e.publishedAt) ∧
    (fallbackRows episodes weekStart).Sorted recentFirst := by
  refine ⟨?_, ?_, ?_, ?_, ?_⟩
  · intro h1 h2
    simp [crawlProcess, h1, h2]
  · intro h1 h2
    simp [crawlProcess, h1, h2]
  · simpa [fallbackRows] using List.length_take_le 50 _
  · intro e he
    have hmem : e ∈ List.insertionSort recentFirst
        (episodes.filter
          (fun e => e.activeSubscription && decide (weekStart ≤ e.publishedAt))) :=
      List.take_subset 50 _ he
    rw [List.mem_insertionSort] at hmem
    obtain ⟨h1, h2⟩ := List.mem_filter.mp hmem
    rw [Bool.and_eq_true] at h2
    exact ⟨h1, h2.1, of_decide_eq_true h2.2⟩
  · exact List.Pairwise.sublist (List.take_sublist 50 _)
      (List.sorted_insertionSort recentFirst _)

/-- Witness for the amended C7 theorem at a concrete input. -/
theorem crawlProcess_fallback_spec_witness :
    crawlProcess [] [EpisodeRow.mk "e1" 10 true] 0 =
      CrawlOutcome.enqueueTranscribe
        (fallbackEpisodeIds [EpisodeRow.mk "e1" 10 true] 0) :=
  (crawlProcess_fallback_spec [] [EpisodeRow.mk "e1" 10 true] 0).1 rfl
    (by decide)

/-! ## Orchestrator: `cancelDigest` (claim C8)

`cancelDigest` throws before any write when the digest is already
terminal (so the digest row is unchanged — the embedding returns
`Except.error` carrying no updated row); otherwise it removes the
pending per-stage dedup jobs `{queue}-{digestId}` from every queue and
sets the digest `FAILED` with error `"Cancelled by user"`. -/

/-- The digest row fields `cancelDigest` touches. -/
structure DigestRow where
  status : DigestStatus
  error : Option String
deriving DecidableEq

/-- The queue names of `allQueues`, with the `"poddigest:"` prefix
stripped as in `cancelDigest`. -/
def queueNames : List String :=
  ["crawl", "transcribe", "analyze", "narrate", "assemble", "deliver", "pipeline"]

/-- The dedup job ids `{queue}-{digestId}` removed by `cancelDigest`. -/
def stageJobIds (digestId : String) : List String :=
  queueNames.map (fun n => n ++ "-" ++ digestId)

/-- The Prisma enum value names, used in the rejection message. -/
def statusName : DigestStatus → String
  | DigestStatus.pending => "PENDING"
  | DigestStatus.crawling => "CRAWLING"
  | DigestStatus.transcribing => "TRANSCRIBING"
  | DigestStatus.analyzing => "ANALYZING"
  | DigestStatus.narrating => "NARRATING"
  | DigestStatus.assembling => "ASSEMBLING"
  | DigestStatus.delivering => "DELIVERING"
  | DigestStatus.completed => "COMPLETED"
  | DigestStatus.failed => "FAILED"

/-- `cancelDigest(digestId)` over the digest row and the set of pending
queue jobs. -/
def cancelDigest (digest : DigestRow) (digestId : String)
    (pendingJobs : List String) : Except String (DigestRow × List String) :=
  if digest.status = DigestStatus.completed ∨ digest.status = DigestStatus.failed then
    Except.error ("Cannot cancel digest in " ++ statusName digest.status ++ " state")
  else
    Except.ok
      (DigestRow.mk DigestStatus.failed (some "Cancelled by user"),
       pendingJobs.filter (fun j => decide (j ∉ stageJobIds digestId)))

/-- C8 (counterexample). A successful cancel writes the error string
`"Cancelled by user"`, not the claimed `"cancelled"`. -/
theorem cancelDigest_error_string_is_not_cancelled :
    cancelDigest (DigestRow.mk DigestStatus.crawling none) "d1" [] =
      Except.ok (DigestRow.mk DigestStatus.failed (some "Cancelled by user"), []) ∧
    "Cancelled by user" ≠ "cancelled" := by
  exact ⟨rfl, by decide⟩

/-- C8 (amended). `cancelDigest` is rejected — returning an error and
performing no write — whenever the digest is `completed` or `failed`;
in every non-terminal status it removes exactly the pending stage jobs
with the dedup ids `{queue}-{digestId}` and sets the digest `failed`
with error `"Cancelled by user"`. -/
theorem cancelDigest_spec (digest : DigestRow) (digestId : String)
    (pendingJobs : List String) :
    (digest.status = DigestStatus.completed ∨ digest.status = DigestStatus.failed →
      cancelDigest digest digestId pendingJobs =
        Except.error
          ("Cannot cancel digest in " ++ statusName digest.status ++ " state")) ∧
    (digest.status ≠ DigestStatus.completed → digest.status ≠ DigestStatus.failed →
      cancelDigest digest digestId pendingJobs =
        Except.ok
          (DigestRow.mk DigestStatus.failed (some "Cancelled by user"),
           pendingJobs.filter (fun j => decide (j ∉ stageJobIds digestId))) ∧
      (∀ j ∈ pendingJobs.filter (fun j => decide (j ∉ stageJobIds digestId)),
        j ∈ pendingJobs ∧ j ∉ stageJobIds digestId) ∧
      (∀ j ∈ pendingJobs, j ∉ stageJobIds digestId →
        j ∈ pendingJobs.filter (fun j => decide (j ∉ stageJobIds digestId)))) := by
  constructor
  · intro h
    simp only [cancelDigest, if_pos h]
  · intro h1 h2
    refine ⟨?_, ?_, ?_⟩
    · unfold cancelDigest
      split_ifs with h
      · rcases h with h | h
        · exact absurd h h1
        · exact absurd h h2
      · rfl
    · intro j hj
      obtain ⟨hmem, hdec⟩ := List.mem_filter.mp hj
      exact ⟨hmem, of_decide_eq_true hdec⟩
    · intro j hj hnot
      exact List.mem_filter.mpr ⟨hj, decide_eq_true hnot⟩

/-- Witness for the amended C8 theorem at a concrete input: the
`crawl-d1` dedup job is removed, an unrelated job survives. -/
theorem cancelDigest_spec_witness :
    cancelDigest (DigestRow.mk DigestStatus.crawling none) "d1"
        ["crawl-d1", "crawl-d2"] =
      Except.ok
        (DigestRow.mk DigestStatus.failed (some "Cancelled by user"),
         ["crawl-d2"]) := by
  have h := (cancelDigest_spec (DigestRow.mk DigestStatus.crawling none) "d1"
    ["crawl-d1", "crawl-d2"]).2 (by decide) (by decide)
  have hfil : List.filter (fun j => decide (j ∉ stageJobIds "d1"))
      ["crawl-d1", "crawl-d2"] = ["crawl-d2"] := by decide
  rw [h.1, hfil]

/-! ## Pipeline status state machine (claim C9)

One digest's lifecycle as a labelled transition system. Each stage
worker sets its in-progress status on entry and `FAILED` (with an error
message) on exception; on success it enqueues the next stage's dedup
job; `deliverDigest` sets `COMPLETED`; `retryFailedDigest` resets a
failed digest to `PENDING` and re-enqueues the crawl stage;
`cancelDigest` moves any non-terminal digest to `FAILED`. A step emits
the list of `Digest.status` writes it performs. A cancel is modelled
only with no stage job in flight (an in-flight lease is not
interrupted); that restriction matches §5 of the spec. -/

inductive Stage where
  | crawl
  | transcribe
  | analyze
  | narrate
  | assemble
  | deliver
deriving DecidableEq

/-- The in-progress status a stage worker writes on entry. -/
def stageStatus : Stage → DigestStatus
  | Stage.crawl => DigestStatus.crawling
  | Stage.transcribe => DigestStatus.transcribing
  | Stage.analyze => DigestStatus.analyzing
  | Stage.narrate => DigestStatus.narrating
  | Stage.assemble => DigestStatus.assembling
  | Stage.deliver => DigestStatus.delivering

/-- The stage whose dedup job a successful worker enqueues next. -/
def nextStage : Stage → Option Stage
  | Stage.crawl => some Stage.transcribe
  | Stage.transcribe => some Stage.analyze
  | Stage.analyze => some Stage.narrate
  | Stage.narrate => some Stage.assemble
  | Stage.assemble => some Stage.deliver
  | Stage.deliver => none

/-- The status a digest holds while a stage's job sits in the queue. -/
def prevStatus : Stage → DigestStatus
  | Stage.crawl => DigestStatus.pending
  | Stage.transcribe => DigestStatus.crawling
  | Stage.analyze => DigestStatus.transcribing
  | Stage.narrate => DigestStatus.analyzing
  | Stage.assemble => DigestStatus.narrating
  | Stage.deliver => DigestStatus.assembling

/-- The orchestration state of one digest: its status, the stage whose
dedup job is queued (if any), and the stage currently running. -/
structure PipeState where
  status : DigestStatus
  queuedJob : Option Stage
  runningJob : Option Stage
deriving DecidableEq

/-- One transition of the pipeline; the `Bool` index enables the
`retryFailedDigest` operation, and the emitted list holds the
`Digest.status` writes of the transition. -/
inductive PipeStep : Bool → PipeState → List DigestStatus → PipeState → Prop where
  | takeJob (allowRetry : Bool) (st : PipeState) (s : Stage)
      (hq : st.queuedJob = some s) (hr : st.runningJob = none) :
      PipeStep allowRetry st [stageStatus s]
        (PipeState.mk (stageStatus s) none (some s))
  | finishOk (allowRetry : Bool) (st : PipeState) (s s' : Stage)
      (hr : st.runningJob = some s) (hn : nextStage s = some s') :
      PipeStep allowRetry st [] (PipeState.mk st.status (some s') none)
  | finishDeliver (allowRetry : Bool) (st : PipeState)
      (hr : st.runningJob = some Stage.deliver) :
      PipeStep allowRetry st [DigestStatus.completed]
        (PipeState.mk DigestStatus.completed none none)
  | finishFail (allowRetry : Bool) (st : PipeState) (s : Stage)
      (hr : st.runningJob = some s) :
      PipeStep allowRetry st [DigestStatus.failed]
        (PipeState.mk DigestStatus.failed none none)
  | retry (st : PipeState) (h : st.status = DigestStatus.failed) :
      PipeStep true st [DigestStatus.pending]
        (PipeState.mk DigestStatus.pending (some Stage.crawl) st.runningJob)
  | cancel (allowRetry : Bool) (st : PipeState)
      (h1 : st.status ≠ DigestStatus.completed)
      (h2 : st.status ≠ DigestStatus.failed)
      (hr : st.runningJob = none) :
      PipeStep allowRetry st [DigestStatus.failed]
        (PipeState.mk DigestStatus.failed none none)

/-- Executions from `triggerDigestPipeline`'s initial state (`PENDING`
with the crawl job enqueued), accumulating the observable status
sequence. -/
inductive Reaches (allowRetry : Bool) : PipeState → List DigestStatus → Prop where
  | init : Reaches allowRetry
      (PipeState.mk DigestStatus.pending (some Stage.crawl) none)
      [DigestStatus.pending]
  | step {st : PipeState} {tr writes : List DigestStatus} {st' : PipeState} :
      Reaches allowRetry st tr → PipeStep allowRetry st writes st' →
      Reaches allowRetry st' (tr ++ writes)

/-- The canonical status chain of the claim. -/
def statusChain : List DigestStatus :=
  [DigestStatus.pending, DigestStatus.crawling, DigestStatus.transcribing,
   DigestStatus.analyzing, DigestStatus.narrating, DigestStatus.assembling,
   DigestStatus.delivering, DigestStatus.completed]

/-- The claimed trace property: a prefix of the chain, or ending at
`failed`. -/
def goodTrace (tr : List DigestStatus) : Prop :=
  tr.isPrefixOf statusChain = true ∨ tr.getLast? = some DigestStatus.failed

/-- The prefix of `statusChain` ending at a non-failed status. -/
def chainUpTo : DigestStatus → List DigestStatus
  | DigestStatus.pending => [DigestStatus.pending]
  | DigestStatus.crawling => [DigestStatus.pending, DigestStatus.crawling]
  | DigestStatus.transcribing =>
      [DigestStatus.pending, DigestStatus.crawling, DigestStatus.transcribing]
  | DigestStatus.analyzing =>
      [DigestStatus.pending, DigestStatus.crawling, DigestStatus.transcribing,
       DigestStatus.analyzing]
  | DigestStatus.narrating =>
      [DigestStatus.pending, DigestStatus.crawling, DigestStatus.transcribing,
       DigestStatus.analyzing, DigestStatus.narrating]
  | DigestStatus.assembling =>
      [DigestStatus.pending, DigestStatus.crawling, DigestStatus.transcribing,
       DigestStatus.analyzing, DigestStatus.narrating, DigestStatus.assembling]
  | DigestStatus.delivering =>
      [DigestStatus.pending, DigestStatus.crawling, DigestStatus.transcribing,
       DigestStatus.analyzing, DigestStatus.narrating, DigestStatus.assembling,
       DigestStatus.delivering]
  | DigestStatus.completed => statusChain
  | DigestStatus.failed => []

/-- Reachability invariant for retry-free executions. -/
def PipeInv (st : PipeState) (tr : List DigestStatus) : Prop :=
  (st.status = DigestStatus.failed ∧ tr.getLast? = some DigestStatus.failed ∧
    st.queuedJob = none ∧ st.runningJob = none) ∨
  (st.status ≠ DigestStatus.failed ∧ tr = chainUpTo st.status ∧
    (∀ s, st.queuedJob = some s → st.status = prevStatus s ∧ st.runningJob = none) ∧
    (∀ s, st.runningJob = some s → st.status = stageStatus s ∧ st.queuedJob = none))

lemma reaches_inv : ∀ {st : PipeState} {tr : List DigestStatus},
    Reaches false st tr → PipeInv st tr := by
  intro st tr h
  induction h with
  | init =>
    right
    refine ⟨by simp, rfl, ?_, ?_⟩
    · intro s hs
      injection hs with hs
      subst hs
      exact ⟨rfl, rfl⟩
    · intro s hs
      cases hs
  | @step st0 tr0 writes0 st1 hreach hstep ih =>
    cases hstep with
    | takeJob ar st2 s hq hr =>
      rcases ih with ⟨_, _, hqn, _⟩ | ⟨_, htr, hqinv, _⟩
      · rw [hqn] at hq
        cases hq
      · obtain ⟨hprev, _⟩ := hqinv s hq
        right
        refine ⟨by cases s <;> simp [stageStatus], ?_, ?_, ?_⟩
        · show tr0 ++ [stageStatus s] = chainUpTo (stageStatus s)
          rw [htr, hprev]
          cases s <;> rfl
        · intro s' hs'
          cases hs'
        · intro s' hs'
          injection hs' with hs'
          subst hs'
          exact ⟨rfl, rfl⟩
    | finishOk ar st2 s s' hr hn =>
      rcases ih with ⟨_, _, _, hrn⟩ | ⟨hnf, htr, _, hrinv⟩
      · rw [hrn] at hr
        cases hr
      · obtain ⟨hss, _⟩ := hrinv s hr
        right
        refine ⟨hnf, by simpa using htr, ?_, ?_⟩
        · intro s'' hs''
          have hs2 : s' = s'' := by
            injection hs''
          subst hs2
          refine ⟨?_, rfl⟩
          show st0.status = prevStatus s'
          rw [hss]
          cases s <;> simp only [nextStage, Option.some.injEq] at hn
          case deliver => exact absurd hn (by simp)
          all_goals subst hn
          all_goals rfl
        · intro s'' hs''
          cases hs''
    | finishDeliver ar st2 hr =>
      rcases ih with ⟨_, _, _, hrn⟩ | ⟨_, htr, _, hrinv⟩
      · rw [hrn] at hr
        cases hr
      · obtain ⟨hss, _⟩ := hrinv Stage.deliver hr
        right
        refine ⟨by simp, ?_, ?_, ?_⟩
        · show tr0 ++ [DigestStatus.completed] = chainUpTo DigestStatus.completed
          rw [htr, hss]
          rfl
        · intro s hs
          cases hs
        · intro s hs
          cases hs
    | finishFail ar st2 s hr =>
      left
      exact ⟨rfl, List.getLast?_concat tr0, rfl, rfl⟩
    | cancel ar st2 h1 h2 hr =>
      left
      exact ⟨rfl, List.getLast?_concat tr0, rfl, rfl⟩

/-- C9 (amended). In every execution that contains no retry operation,
the observable `Digest.status` sequence is a prefix of
`[pending, crawling, transcribing, analyzing, narrating, assembling,
delivering, completed]` or ends at `failed`; `retryFailedDigest` resets
a failed digest to `pending`, restarting the sequence. -/
theorem pipeline_status_monotone_without_retry
    (st : PipeState) (tr : List DigestStatus)
    (h : Reaches false st tr) : goodTrace tr := by
  rcases reaches_inv h with ⟨_, hlast, _, _⟩ | ⟨_, htr, _, _⟩
  · exact Or.inr hlast
  · left
    rw [htr]
    cases hst : st.status <;> decide

/-- C9 (counterexample). With the retry operation included — as the
claim's step relation states — the trace
`[pending, crawling, failed, pending]` is observable and is neither a
prefix of the canonical chain nor ends at `failed`. -/
theorem pipeline_status_trace_counterexample :
    Reaches true (PipeState.mk DigestStatus.pending (some Stage.crawl) none)
      [DigestStatus.pending, DigestStatus.crawling, DigestStatus.failed,
       DigestStatus.pending] ∧
    ¬ goodTrace
      [DigestStatus.pending, DigestStatus.crawling, DigestStatus.failed,
       DigestStatus.pending] := by
  constructor
  · have h0 : Reaches true
        (PipeState.mk DigestStatus.pending (some Stage.crawl) none)
        [DigestStatus.pending] := Reaches.init
    have h1 := Reaches.step h0 (PipeStep.takeJob true _ Stage.crawl rfl rfl)
    have h2 := Reaches.step h1 (PipeStep.finishFail true _ Stage.crawl rfl)
    have h3 := Reaches.step h2 (PipeStep.retry _ rfl)
    exact h3
  · intro h
    rcases h with h | h
    · exact absurd h (by decide)
    · exact absurd h (by decide)

/-- Witness for the amended C9 theorem on a concrete retry-free
execution. -/
theorem pipeline_status_monotone_without_retry_witness :
    goodTrace [DigestStatus.pending, DigestStatus.crawling] :=
  pipeline_status_monotone_without_retry _ _
    (Reaches.step Reaches.init (PipeStep.takeJob false _ Stage.crawl rfl rfl))

/-! ## Assembler: playlist construction (claim C10)

Step 4 of `assembleDigest` sorts the narration audios by position,
separates intro, outro, and the position-sorted transitions, throws
`"Missing intro or outro narration audio"` when intro or outro is
absent, and builds the playlist intro → (transition_i → clip_i) → outro
— tolerating silently a missing transition for clip `i`
(`if (transition) { ... }`). -/

/-- A narration audio entry (`NarrationAudio`). -/
structure NarrationAudio where
  ntype : ScriptType
  s3Key : String
  duration : ℚ
  position : ℕ
deriving DecidableEq

/-- A digest clip row as the playlist needs it. -/
structure ClipRow where
  episodeId : String
  startTime : ℚ
  endTime : ℚ
deriving DecidableEq

/-- One playlist entry: a narration file or an extracted clip file. -/
inductive PlaylistItem where
  | narrationItem (n : NarrationAudio)
  | clipItem (c : ClipRow)
deriving DecidableEq

/-- Comparator `(a, b) => a.position - b.position` as a stable-sort
relation. -/
def byPositionOrder (a b : NarrationAudio) : Prop := a.position ≤ b.position

instance : DecidableRel byPositionOrder :=
  fun a b => (inferInstance : Decidable (a.position ≤ b.position))

instance : IsTotal NarrationAudio byPositionOrder :=
  ⟨fun a b => Nat.le_total a.position b.position⟩

instance : IsTrans NarrationAudio byPositionOrder :=
  ⟨fun _ _ _ h1 h2 => Nat.le_trans h1 h2⟩

/-- `sortedNarrations` -/
def sortedNarrations (narrationAudios : List NarrationAudio) :
    List NarrationAudio :=
  List.insertionSort byPositionOrder narrationAudios

/-- `sortedNarrations.find((n) => n.type === "intro")` -/
def introNarration (narrationAudios : List NarrationAudio) :
    Option NarrationAudio :=
  (sortedNarrations narrationAudios).find?
    (fun n => decide (n.ntype = ScriptType.intro))

/-- `sortedNarrations.find((n) => n.type === "outro")` -/
def outroNarration (narrationAudios : List NarrationAudio) :
    Option NarrationAudio :=
  (sortedNarrations narrationAudios).find?
    (fun n => decide (n.ntype = ScriptType.outro))

/-- The transition narrations, filtered and re-sorted by position. -/
def transitionNarrations (narrationAudios : List NarrationAudio) :
    List NarrationAudio :=
  List.insertionSort byPositionOrder
    ((sortedNarrations narrationAudios).filter
      (fun n => decide (n.ntype = ScriptType.transition)))

/-- The transition-clip loop: clip `i` is preceded by
`transitionNarrations[i]` when that entry exists, and placed directly
after the previous segment otherwise. -/
def middleSegments : List ClipRow → List NarrationAudio → List PlaylistItem
  | [], _ => []
  | c :: cs, [] => PlaylistItem.clipItem c :: middleSegments cs []
  | c :: cs, t :: ts =>
    PlaylistItem.narrationItem t :: PlaylistItem.clipItem c ::
      middleSegments cs ts

/-- The segment-sequencing core of `assembleDigest` (steps 3-4). -/
def buildPlaylist (clips : List ClipRow)
    (narrationAudios : List NarrationAudio) :
    Except String (List PlaylistItem) :=
  match introNarration narrationAudios, outroNarration narrationAudios with
  | some intro0, some outro0 =>
    Except.ok
      (PlaylistItem.narrationItem intro0 ::
        middleSegments clips (transitionNarrations narrationAudios) ++
        [PlaylistItem.narrationItem outro0])
  | _, _ => Except.error "Missing intro or outro narration audio"

lemma introNarration_eq_none_iff (narrationAudios : List NarrationAudio) :
    introNarration narrationAudios = none ↔
      ∀ n ∈ narrationAudios, n.ntype ≠ ScriptType.intro := by
  unfold introNarration
  rw [List.find?_eq_none]
  constructor
  · intro h n hn
    have := h n (by simpa [sortedNarrations] using hn)
    simpa using this
  · intro h n hn
    have := h n (by simpa [sortedNarrations] using hn)
    simpa using this

lemma outroNarration_eq_none_iff (narrationAudios : List NarrationAudio) :
    outroNarration narrationAudios = none ↔
      ∀ n ∈ narrationAudios, n.ntype ≠ ScriptType.outro := by
  unfold outroNarration
  rw [List.find?_eq_none]
  constructor
  · intro h n hn
    have := h n (by simpa [sortedNarrations] using hn)
    simpa using this
  · intro h n hn
    have := h n (by simpa [sortedNarrations] using hn)
    simpa using this

lemma middleSegments_no_transitions (clips : List ClipRow) :
    middleSegments clips [] = clips.map PlaylistItem.clipItem := by
  induction clips with
  | nil => rfl
  | cons c cs ih => simp [middleSegments, ih]

lemma middleSegments_full_transitions :
    ∀ (clips : List ClipRow) (ts : List NarrationAudio),
      clips.length ≤ ts.length →
      middleSegments clips ts =
        (clips.zip ts).flatMap
          (fun p => [PlaylistItem.narrationItem p.2, PlaylistItem.clipItem p.1]) := by
  intro clips
  induction clips with
  | nil =>
    intro ts _
    simp [middleSegments]
  | cons c cs ih =>
    intro ts hlen
    cases ts with
    | nil => simp at hlen
    | cons t ts' =>
      simp only [List.length_cons, Nat.add_le_add_iff_right] at hlen
      simp [middleSegments, List.zip_cons_cons, ih ts' hlen]

/-- C10. `assembleDigest` raises `"Missing intro or outro narration
audio"` exactly when the narration list has no intro or no outro
element; a missing transition for clip `i` is tolerated silently, the
clip following the previous segment directly; and the full pattern
intro, (transition_i, clip_i) for each i, outro holds whenever a
transition exists for every clip. -/
theorem buildPlaylist_missing_narration_spec (clips : List ClipRow)
    (narrationAudios : List NarrationAudio) :
    ((∀ n ∈ narrationAudios, n.ntype ≠ ScriptType.intro) ∨
      (∀ n ∈ narrationAudios, n.ntype ≠ ScriptType.outro) →
      buildPlaylist clips narrationAudios =
        Except.error "Missing intro or outro narration audio") ∧
    (∀ intro0 outro0, introNarration narrationAudios = some intro0 →
      outroNarration narrationAudios = some outro0 →
      buildPlaylist clips narrationAudios =
        Except.ok
          (PlaylistItem.narrationItem intro0 ::
            middleSegments clips (transitionNarrations narrationAudios) ++
            [PlaylistItem.narrationItem outro0])) ∧
    (transitionNarrations narrationAudios = [] →
      buildPlaylist clips narrationAudios =
        Except.error "Missing intro or outro narration audio" ∨
      buildPlaylist clips narrationAudios =
        Except.ok
          ((introNarration narrationAudios).elim []
              (fun i => [PlaylistItem.narrationItem i]) ++
            clips.map PlaylistItem.clipItem ++
            (outroNarration narrationAudios).elim []
              (fun o => [PlaylistItem.narrationItem o]))) ∧
    (clips.length ≤ (transitionNarrations narrationAudios).length →
      middleSegments clips (transitionNarrations narrationAudios) =
        (clips.zip (transitionNarrations narrationAudios)).flatMap
          (fun p => [PlaylistItem.narrationItem p.2, PlaylistItem.clipItem p.1])) := by
  refine ⟨?_, ?_, ?_, ?_⟩
  · intro h
    unfold buildPlaylist
    rcases h with h | h
    · rw [(introNarration_eq_none_iff narrationAudios).mpr h]
    · rw [(outroNarration_eq_none_iff narrationAudios).mpr h]
      cases introNarration narrationAudios <;> rfl
  · intro intro0 outro0 hi ho
    unfold buildPlaylist
    rw [hi, ho]
  · intro htr
    cases hi : introNarration narrationAudios with
    | none =>
      left
      simp [buildPlaylist, hi]
    | some i0 =>
      cases ho : outroNarration narrationAudios with
      | none =>
        left
        simp [buildPlaylist, hi, ho]
      | some o0 =>
        right
        unfold buildPlaylist
        rw [hi, ho, htr, middleSegments_no_transitions]
        simp
  · exact middleSegments_full_transitions clips (transitionNarrations narrationAudios)

/-- Witness for C10 at a concrete input: one clip, intro and outro
present, no transition narration — assembly succeeds and the clip
directly follows the intro. -/
theorem buildPlaylist_missing_narration_spec_witness :
    buildPlaylist [ClipRow.mk "e1" 0 200]
        [NarrationAudio.mk ScriptType.intro "k0" 10 0,
         NarrationAudio.mk ScriptType.outro "k2" 10 2] =
      Except.ok
        [PlaylistItem.narrationItem (NarrationAudio.mk ScriptType.intro "k0" 10 0),
         PlaylistItem.clipItem (ClipRow.mk "e1" 0 200),
         PlaylistItem.narrationItem (NarrationAudio.mk ScriptType.outro "k2" 10 2)] := by
  have h := (buildPlaylist_missing_narration_spec [ClipRow.mk "e1" 0 200]
    [NarrationAudio.mk ScriptType.intro "k0" 10 0,
     NarrationAudio.mk ScriptType.outro "k2" 10 2]).2.1
    (NarrationAudio.mk ScriptType.intro "k0" 10 0)
    (NarrationAudio.mk ScriptType.outro "k2" 10 2)
    (by decide) (by decide)
  have hmid : middleSegments [ClipRow.mk "e1" 0 200]
      (transitionNarrations
        [NarrationAudio.mk ScriptType.intro "k0" 10 0,
         NarrationAudio.mk ScriptType.outro "k2" 10 2]) =
      [PlaylistItem.clipItem (ClipRow.mk "e1" 0 200)] := by decide
  rw [h, hmid]
  rfl

end PodDigest
